import Mathlib

/-!
Verification of the interactive multi-layer raster compositing and editing
engine of ArchiDiff (frontend/src/pages/CanvasEditor.tsx).

The editor state and its operations are shallowly embedded below.  Pixel
buffers are modelled as alpha maps over idealized continuous coordinates
(rational points); the canvas 2d erase primitives (arc+fill, fillRect,
stroke, all with destination-out compositing) become region-clearing
updates of those maps.  Distances are tracked as squared rationals: the
source compares `Math.sqrt` values, and squaring is strictly monotone on
nonnegative reals, so every comparison is preserved exactly.  The
compositor's forward transform, which involves rotation, is embedded over
the real numbers.
-/

namespace ArchiDiff

/-- A point of the idealized raster plane (image or display coordinates). -/
abbrev Point := ℚ × ℚ

/-- A pixel buffer, as the alpha value at each idealized coordinate.
Erasing (canvas destination-out with an opaque source) sets alpha to 0. -/
abbrev Buffer := Point → ℚ

/-- A layer's user transform `{x, y, rotation, opacity, scale}`
(CanvasEditor.tsx line 17, over the editing model's exact rationals). -/
structure Transform2D where
  x : ℚ
  y : ℚ
  rot : ℚ
  opacity : ℚ
  scale : ℚ

/-- One layer record: `{id, visible, active, transform}` (id is the key). -/
structure Layer where
  visible : Bool
  active : Bool
  transform : Transform2D

/-- One undo/redo entry: `{layerId, imageData}` (CanvasEditor.tsx line 31). -/
structure HistEntry where
  layerId : ℕ
  imageData : Buffer

/-- The edit sub-tool: `'brush' | 'box' | 'line'` (line 35). -/
inductive SubTool where
  | brush
  | box
  | line
deriving DecidableEq

/-- A detected line segment `{x1, y1, x2, y2}` in image space (line 43). -/
structure Seg where
  x1 : ℚ
  y1 : ℚ
  x2 : ℚ
  y2 : ℚ

/-- The editing session state of CanvasEditor: layers with transforms, the
per-layer editable buffers, the undo/redo stacks, and the tool state. -/
structure EditorState where
  layers : ℕ → Layer
  buffers : ℕ → Buffer
  undoHistory : List HistEntry
  redoHistory : List HistEntry
  editSubTool : SubTool
  brushSize : ℚ
  isErasing : Bool
  boxStart : Option Point
  boxEnd : Option Point
  selectedLines : Finset ℕ
  detectedLines : List Seg

/-- `MAX_UNDO_HISTORY = 10` (line 33). -/
def MAX_UNDO_HISTORY : ℕ := 10

/-- JavaScript `array.slice(-n)`: the last `n` elements (all of them when
the array is shorter). -/
def takeLast (n : ℕ) (l : List α) : List α := l.drop (l.length - n)

/-- `activeLayerId = layers[1].active ? 1 : 2` (line 65). -/
def activeLayerId (st : EditorState) : ℕ :=
  if (st.layers 1).active then 1 else 2

/-- Replace one layer's buffer (an in-place canvas mutation in the source). -/
def updateBuf (l : ℕ) (b : Buffer) (st : EditorState) : EditorState :=
  { st with buffers := fun i => if i = l then b else st.buffers i }

/-- `setActiveLayer(layerId)` (lines 350-356). -/
def setActiveLayer (l : ℕ) (st : EditorState) : EditorState :=
  { st with layers := fun i => { st.layers i with active := i == l } }

/-- `saveUndoState` (lines 555-568): snapshot the active layer's buffer,
append it to the undo stack keeping only the last `MAX_UNDO_HISTORY`
entries, and clear the redo stack. -/
def saveUndoState (st : EditorState) : EditorState :=
  { st with
    undoHistory := takeLast MAX_UNDO_HISTORY
      (st.undoHistory ++ [⟨activeLayerId st, st.buffers (activeLayerId st)⟩]),
    redoHistory := [] }

/-- `undo` (lines 756-781): no-op on an empty stack; otherwise push the
current buffer of the popped entry's layer onto the bounded redo stack,
restore the popped snapshot, and shrink the undo stack. -/
def undo (st : EditorState) : EditorState :=
  (st.undoHistory.getLast?).elim st (fun lastState =>
    { st with
      buffers := fun i =>
        if i = lastState.layerId then lastState.imageData else st.buffers i,
      redoHistory := takeLast MAX_UNDO_HISTORY
        (st.redoHistory ++ [⟨lastState.layerId, st.buffers lastState.layerId⟩]),
      undoHistory := st.undoHistory.dropLast })

/-- `redo` (lines 783-808): the mirror of `undo`. -/
def redo (st : EditorState) : EditorState :=
  (st.redoHistory.getLast?).elim st (fun nextState =>
    { st with
      buffers := fun i =>
        if i = nextState.layerId then nextState.imageData else st.buffers i,
      undoHistory := takeLast MAX_UNDO_HISTORY
        (st.undoHistory ++ [⟨nextState.layerId, st.buffers nextState.layerId⟩]),
      redoHistory := st.redoHistory.dropLast })

/-- The display-to-image conversion used by all three pointer tools
(lines 419-424, 432-437, 731-739): `((canvasX - x) / scale, (canvasY - y) / scale)`
with the active layer's transform. -/
def toolImagePoint (st : EditorState) (canvasP : Point) : Point :=
  ((canvasP.1 - ((st.layers (activeLayerId st)).transform).x) /
      ((st.layers (activeLayerId st)).transform).scale,
   (canvasP.2 - ((st.layers (activeLayerId st)).transform).y) /
      ((st.layers (activeLayerId st)).transform).scale)

/-- Membership in the closed disk cleared by `ctx.arc(x, y, r, 0, 2π); ctx.fill()`. -/
def inDisk (c : Point) (r : ℚ) (p : Point) : Prop :=
  (p.1 - c.1) ^ 2 + (p.2 - c.2) ^ 2 ≤ r ^ 2

instance (c : Point) (r : ℚ) (p : Point) : Decidable (inDisk c r p) := by
  unfold inDisk; infer_instance

/-- The half-open rectangle cleared by `ctx.fillRect(x, y, w, h)`
(a zero-width or zero-height rectangle paints nothing). -/
def inFillRect (x y w h : ℚ) (p : Point) : Prop :=
  x ≤ p.1 ∧ p.1 < x + w ∧ y ≤ p.2 ∧ p.2 < y + h

instance (x y w h : ℚ) (p : Point) : Decidable (inFillRect x y w h p) := by
  unfold inFillRect; infer_instance

/-- The unclamped projection parameter of a point onto a segment's line. -/
def segT (s : Seg) (p : Point) : ℚ :=
  ((p.1 - s.x1) * (s.x2 - s.x1) + (p.2 - s.y1) * (s.y2 - s.y1)) /
    ((s.x2 - s.x1) * (s.x2 - s.x1) + (s.y2 - s.y1) * (s.y2 - s.y1))

/-- The butt-capped stroke of a segment at width `w`, as painted by
`ctx.moveTo/lineTo/stroke` with `lineWidth = w` (a zero-length segment
paints nothing). -/
def inStroke (s : Seg) (w : ℚ) (p : Point) : Prop :=
  ¬(s.x2 - s.x1 = 0 ∧ s.y2 - s.y1 = 0) ∧
  0 ≤ segT s p ∧ segT s p ≤ 1 ∧
  (p.1 - (s.x1 + segT s p * (s.x2 - s.x1))) ^ 2 +
    (p.2 - (s.y1 + segT s p * (s.y2 - s.y1))) ^ 2 ≤ (w / 2) ^ 2

instance (s : Seg) (w : ℚ) (p : Point) : Decidable (inStroke s w p) := by
  unfold inStroke; infer_instance

/-- Pixel `p` lies in the width-5 stroke of the `idx`-th detected segment
(false when `idx` is out of range, matching the `if (line)` guard of
eraseSelectedLines). -/
def strokeHit (lines : List Seg) (idx : ℕ) (p : Point) : Prop :=
  match lines.get? idx with
  | none => False
  | some line => inStroke line 5 p

instance (lines : List Seg) (idx : ℕ) (p : Point) :
    Decidable (strokeHit lines idx p) := by
  unfold strokeHit
  cases lines.get? idx with
  | none => exact isFalse fun h => h
  | some line => exact inferInstanceAs (Decidable (inStroke line 5 p))

/-- One iteration of eraseSelectedLines' loop (lines 641-649): stroke the
`idx`-th detected segment (width 5, destination-out) onto the buffer,
skipping out-of-range indices. -/
def strokeStep (lines : List Seg) (b : Buffer) (idx : ℕ) : Buffer :=
  (lines.get? idx).elim b
    (fun line => fun q => if inStroke line 5 q then 0 else b q)

/-- `eraseAtPoint` (lines 720-754): inverse-transform the canvas point with
the active layer's `{x, y, scale}`, divide the brush radius by the same
scale, and clear that disk on the active editable buffer. -/
def eraseAtPoint (canvasP : Point) (st : EditorState) : EditorState :=
  updateBuf (activeLayerId st)
    (fun p =>
      if inDisk (toolImagePoint st canvasP)
          (st.brushSize / ((st.layers (activeLayerId st)).transform).scale) p
      then 0 else st.buffers (activeLayerId st) p)
    st

/-- The brush branch of `handleMouseDown` (lines 412-416): push one undo
snapshot, raise the erasing flag, then erase at the point. -/
def brushPointerDown (canvasP : Point) (st : EditorState) : EditorState :=
  eraseAtPoint canvasP { saveUndoState st with isErasing := true }

/-- The brush branch of `handleMouseMove` (lines 468-475): while the
erasing flag is up each move erases another disk; no history operation. -/
def brushPointerMove (canvasP : Point) (st : EditorState) : EditorState :=
  if st.isErasing then eraseAtPoint canvasP st else st

/-- The box branch of `handleMouseDown` (lines 417-429): record the
image-space anchor as both corners. -/
def boxPointerDown (canvasP : Point) (st : EditorState) : EditorState :=
  { st with
    boxStart := some (toolImagePoint st canvasP),
    boxEnd := some (toolImagePoint st canvasP) }

/-- The box branch of `handleMouseMove` (lines 476-490): while an anchor
exists, move the second corner (in image space). -/
def boxPointerMove (canvasP : Point) (st : EditorState) : EditorState :=
  if st.boxStart.isSome then
    { st with boxEnd := some (toolImagePoint st canvasP) }
  else st

/-- `eraseBox` (lines 570-592): min/max-normalize the two image-space
corners and clear that rectangle on the active editable buffer. -/
def eraseBox (st : EditorState) : EditorState :=
  match st.boxStart, st.boxEnd with
  | some bs, some be =>
      updateBuf (activeLayerId st)
        (fun p =>
          if inFillRect (min bs.1 be.1) (min bs.2 be.2)
              |be.1 - bs.1| |be.2 - bs.2| p
          then 0 else st.buffers (activeLayerId st) p)
        st
  | _, _ => st

/-- `handleMouseUp` (lines 530-548): when the box sub-tool has both corners
pending, push one undo snapshot, erase the box, and clear the drag state;
in every case drop the erasing flag. -/
def pointerUp (st : EditorState) : EditorState :=
  if st.editSubTool = SubTool.box ∧ st.boxStart.isSome ∧ st.boxEnd.isSome then
    { eraseBox (saveUndoState st) with
      boxStart := none, boxEnd := none, isErasing := false }
  else
    { st with isErasing := false }

/-- `pointToSegmentDistance` (lines 609-622), squared: the squared distance
from a point to a segment, clamping the projection parameter to [0, 1]. -/
def pointToSegmentDistanceSq (px py : ℚ) (s : Seg) : ℚ :=
  if s.x2 - s.x1 = 0 ∧ s.y2 - s.y1 = 0 then
    (px - s.x1) ^ 2 + (py - s.y1) ^ 2
  else
    (px - (s.x1 + max 0 (min 1 (segT s (px, py))) * (s.x2 - s.x1))) ^ 2 +
      (py - (s.y1 + max 0 (min 1 (segT s (px, py))) * (s.y2 - s.y1))) ^ 2

/-- One step of `findLineNearPoint`'s scan: keep the index whose (squared)
distance is below both the running minimum and the (squared) threshold. -/
def nearLineStep (px py thresholdSq : ℚ) (acc : Option (ℕ × ℚ))
    (entry : ℕ × Seg) : Option (ℕ × ℚ) :=
  match acc with
  | none =>
      if pointToSegmentDistanceSq px py entry.2 < thresholdSq then
        some (entry.1, pointToSegmentDistanceSq px py entry.2)
      else none
  | some (j, mSq) =>
      if pointToSegmentDistanceSq px py entry.2 < mSq ∧
          pointToSegmentDistanceSq px py entry.2 < thresholdSq then
        some (entry.1, pointToSegmentDistanceSq px py entry.2)
      else some (j, mSq)

/-- `findLineNearPoint(x, y, threshold = 15)` (lines 594-607), with squared
distances (the initial `minDist = Infinity` makes the first test collapse
to the threshold test alone). -/
def findLineNearPoint (lines : List Seg) (px py : ℚ)
    (thresholdSq : ℚ := 225) : Option ℕ :=
  (lines.enum.foldl (nearLineStep px py thresholdSq) none).map Prod.fst

/-- The line branch of `handleMouseDown` (lines 430-452): inverse-transform
the click, find the nearest detected segment within threshold, and toggle
its membership in the selection set (no-op when none is near). -/
def linePointerDown (canvasP : Point) (st : EditorState) : EditorState :=
  match findLineNearPoint st.detectedLines
      (toolImagePoint st canvasP).1 (toolImagePoint st canvasP).2 with
  | none => st
  | some idx =>
      { st with
        selectedLines :=
          if idx ∈ st.selectedLines then st.selectedLines.erase idx
          else insert idx st.selectedLines }

/-- `eraseSelectedLines` (lines 624-656): return early on an empty
selection; otherwise push one undo snapshot, stroke every selected segment
(width 5, destination-out, skipping out-of-range indices) on the active
buffer, and clear the selection. -/
def eraseSelectedLines (st : EditorState) : EditorState :=
  if st.selectedLines = ∅ then st
  else
    let st1 := saveUndoState st
    let a := activeLayerId st
    { updateBuf a
        ((st.selectedLines.sort (· ≤ ·)).foldl
          (strokeStep st.detectedLines) (st.buffers a))
        st1 with
      selectedLines := ∅ }

/-- The sub-tool buttons (lines 1077-1109) call the raw state setter
`setEditSubTool('brush' | 'box' | 'line')`: only the sub-tool field changes. -/
def setEditSubToolOp (t : SubTool) (st : EditorState) : EditorState :=
  { st with editSubTool := t }

/-- A destructive edit targeting layer `l`: select that layer, push one
undo snapshot of the now-active layer's buffer, then mutate that same
buffer.  This is the common shape of all three tools' edits (brush
pointer-down, box pointer-up, erase-selected-lines), abstracted over the
pixel mutation `f`. -/
def destructiveEdit (l : ℕ) (f : Buffer → Buffer) (st : EditorState) :
    EditorState :=
  let st1 := saveUndoState (setActiveLayer l st)
  updateBuf (activeLayerId st1) (f (st1.buffers (activeLayerId st1))) st1

/-- A sequence of destructive edits, applied left to right. -/
def applyEdits (edits : List (ℕ × (Buffer → Buffer))) (st : EditorState) :
    EditorState :=
  edits.foldl (fun s e => destructiveEdit e.1 e.2 s) st

/-- `undo()` called `n` times. -/
def undoN (n : ℕ) (st : EditorState) : EditorState := Nat.iterate undo n st

/-- `redo()` called `n` times. -/
def redoN (n : ℕ) (st : EditorState) : EditorState := Nat.iterate redo n st

/-- The state snapshots that the `n` undos of a run of `n` destructive
edits leave on the redo stack: bottom to top, the post-edit buffer of each
edit's target layer, last edit at the bottom. -/
def postEntries : List (ℕ × (Buffer → Buffer)) → EditorState → List HistEntry
  | [], _ => []
  | e :: rest, st =>
      postEntries rest (destructiveEdit e.1 e.2 st) ++
        [⟨activeLayerId (destructiveEdit e.1 e.2 st),
          (destructiveEdit e.1 e.2 st).buffers
            (activeLayerId (destructiveEdit e.1 e.2 st))⟩]

/-- An editing-history operation, for stating the bounded-history invariant. -/
inductive EOp where
  | edit : ℕ → (Buffer → Buffer) → EOp
  | undoOp : EOp
  | redoOp : EOp

/-- Interpret one history operation. -/
def applyOp : EOp → EditorState → EditorState
  | EOp.edit l f, st => destructiveEdit l f st
  | EOp.undoOp, st => undo st
  | EOp.redoOp, st => redo st

/-- Interpret a sequence of history operations, left to right. -/
def applyOps (ops : List EOp) (st : EditorState) : EditorState :=
  ops.foldl (fun s o => applyOp o s) st

/-- `scaleToFit` (renderCanvas, line 100): fit the larger image into the
fixed 1600 x 1200 display surface. -/
def scaleToFit (maxImageWidth maxImageHeight : ℚ) : ℚ :=
  min (1600 / maxImageWidth) (1200 / maxImageHeight)

/-- The compositor's forward transform (renderCanvas, lines 110-123):
`translate(centerX + x, centerY + y); rotate(rotation·π/180);
scale(scale·scaleToFit); drawImage(img, -w/2, -h/2)`, i.e. the display
position of image pixel `p`.  The source rotates by `rotation·π/180` via
`ctx.rotate`; here the rotation angle enters through its cosine and sine,
passed explicitly so that the map stays within exact rational arithmetic
(for `rotation = 0` they are exactly 1 and 0, also in floating point). -/
def renderForward (t : Transform2D) (cosRot sinRot stf imgW imgH : ℚ)
    (p : Point) : Point :=
  (imgW * stf / 2 + t.x +
      (cosRot * (t.scale * stf * (p.1 - imgW / 2)) -
        sinRot * (t.scale * stf * (p.2 - imgH / 2))),
   imgH * stf / 2 + t.y +
      (sinRot * (t.scale * stf * (p.1 - imgW / 2)) +
        cosRot * (t.scale * stf * (p.2 - imgH / 2))))

/-- The display-to-image conversion the pointer tools actually apply
(eraseAtPoint lines 731-739, and the box and line branches of
handleMouseDown): subtract `(x, y)` and divide by `scale` only — the
standalone form of `toolImagePoint` for an arbitrary transform. -/
def toolInverse (t : Transform2D) (q : Point) : Point :=
  ((q.1 - t.x) / t.scale, (q.2 - t.y) / t.scale)

/-- The identity transform every layer starts with (line 17). -/
def zeroTransform : Transform2D := ⟨0, 0, 0, 1, 1⟩

/-- A concrete session state for evaluating the theorems below: both
layers visible with identity transforms, layer 1 active, fully opaque
buffers, empty history, brush sub-tool. -/
def sampleState : EditorState where
  layers := fun _ => ⟨true, true, zeroTransform⟩
  buffers := fun _ => fun _ => 255
  undoHistory := []
  redoHistory := []
  editSubTool := SubTool.brush
  brushSize := 20
  isErasing := false
  boxStart := none
  boxEnd := none
  selectedLines := ∅
  detectedLines := []

/-- The sample state with a full (ten-entry) undo stack. -/
def fullUndoState : EditorState :=
  { sampleState with undoHistory := List.replicate 10 ⟨1, fun _ => 0⟩ }

/-- The sample state with one undo entry and a full (ten-entry) redo stack. -/
def fullRedoState : EditorState :=
  { sampleState with
    undoHistory := [⟨1, fun _ => 0⟩],
    redoHistory := List.replicate 10 ⟨2, fun _ => 0⟩ }

/-- The sample state ready to commit a degenerate (zero-width) box drag. -/
def degenerateBoxState : EditorState :=
  { sampleState with
    editSubTool := SubTool.box,
    boxStart := some (3, 4),
    boxEnd := some (3, 9) }

/-- The sample state with the line sub-tool, one detected horizontal
segment, and that segment selected. -/
def lineSelState : EditorState :=
  { sampleState with
    editSubTool := SubTool.line,
    selectedLines := {0},
    detectedLines := [⟨0, 0, 100, 0⟩] }

/-- The sample state with the line sub-tool, one selected segment, and a
pending box drag — in-progress state for observing a sub-tool switch. -/
def pendingToolState : EditorState :=
  { sampleState with
    editSubTool := SubTool.line,
    selectedLines := {0},
    boxStart := some (1, 1),
    boxEnd := some (2, 2) }

/-! ### Elementary facts about `takeLast` (JS `slice(-n)`) -/

lemma takeLast_length_le (n : ℕ) (l : List α) : (takeLast n l).length ≤ n := by
  simp [takeLast]
  omega

lemma takeLast_of_length_le {n : ℕ} {l : List α} (h : l.length ≤ n) :
    takeLast n l = l := by
  unfold takeLast
  have hz : l.length - n = 0 := by omega
  simp [hz]

lemma takeLast_concat {n : ℕ} (h : 1 ≤ n) (l : List α) (a : α) :
    takeLast n (l ++ [a]) = takeLast (n - 1) l ++ [a] := by
  unfold takeLast
  rw [List.length_append]
  rw [List.drop_append_of_le_length (by simp; omega)]
  congr 2
  simp
  omega

lemma takeLast_takeLast {m n : ℕ} (h : m ≤ n) (l : List α) :
    takeLast m (takeLast n l) = takeLast m l := by
  unfold takeLast
  rw [List.drop_drop]
  congr 1
  simp
  omega

/-! ### Unfolding equations for the history operations -/

lemma undo_concat {st : EditorState} {A : List HistEntry} {E : HistEntry}
    (h : st.undoHistory = A ++ [E]) :
    undo st =
      { st with
        buffers := fun i =>
          if i = E.layerId then E.imageData else st.buffers i,
        redoHistory := takeLast MAX_UNDO_HISTORY
          (st.redoHistory ++ [⟨E.layerId, st.buffers E.layerId⟩]),
        undoHistory := A } := by
  unfold undo
  rw [h, List.getLast?_concat, List.dropLast_concat]
  rfl

lemma redo_concat {st : EditorState} {A : List HistEntry} {E : HistEntry}
    (h : st.redoHistory = A ++ [E]) :
    redo st =
      { st with
        buffers := fun i =>
          if i = E.layerId then E.imageData else st.buffers i,
        undoHistory := takeLast MAX_UNDO_HISTORY
          (st.undoHistory ++ [⟨E.layerId, st.buffers E.layerId⟩]),
        redoHistory := A } := by
  unfold redo
  rw [h, List.getLast?_concat, List.dropLast_concat]
  rfl

lemma destructiveEdit_buffers (l : ℕ) (f : Buffer → Buffer)
    (st : EditorState) (i : ℕ) :
    (destructiveEdit l f st).buffers i =
      if i = activeLayerId (setActiveLayer l st) then
        f (st.buffers (activeLayerId (setActiveLayer l st)))
      else st.buffers i := rfl

lemma destructiveEdit_undoHistory (l : ℕ) (f : Buffer → Buffer)
    (st : EditorState) :
    (destructiveEdit l f st).undoHistory =
      takeLast MAX_UNDO_HISTORY
        (st.undoHistory ++
          [⟨activeLayerId (setActiveLayer l st),
            st.buffers (activeLayerId (setActiveLayer l st))⟩]) := rfl

lemma destructiveEdit_redoHistory (l : ℕ) (f : Buffer → Buffer)
    (st : EditorState) :
    (destructiveEdit l f st).redoHistory = [] := rfl

lemma activeLayerId_destructiveEdit (l : ℕ) (f : Buffer → Buffer)
    (st : EditorState) :
    activeLayerId (destructiveEdit l f st) =
      activeLayerId (setActiveLayer l st) := rfl

lemma applyEdits_cons (e : ℕ × (Buffer → Buffer))
    (rest : List (ℕ × (Buffer → Buffer))) (st : EditorState) :
    applyEdits (e :: rest) st = applyEdits rest (destructiveEdit e.1 e.2 st) :=
  rfl

lemma undoN_succ (n : ℕ) (st : EditorState) :
    undoN (n + 1) st = undo (undoN n st) :=
  Function.iterate_succ_apply' undo n st

lemma redoN_succ (n : ℕ) (st : EditorState) :
    redoN (n + 1) st = redoN n (redo st) :=
  Function.iterate_succ_apply redo n st

lemma postEntries_length :
    ∀ (edits : List (ℕ × (Buffer → Buffer))) (st : EditorState),
      (postEntries edits st).length = edits.length := by
  intro edits
  induction edits with
  | nil => intro st; rfl
  | cons e rest ih => intro st; simp [postEntries, ih]

lemma undo_step {r : EditorState} {A : List HistEntry} {lid : ℕ}
    {snap : Buffer} (hA : r.undoHistory = A ++ [⟨lid, snap⟩]) :
    (∀ i, (undo r).buffers i = if i = lid then snap else r.buffers i) ∧
      (undo r).undoHistory = A ∧
      (undo r).redoHistory =
        takeLast MAX_UNDO_HISTORY (r.redoHistory ++ [⟨lid, r.buffers lid⟩]) := by
  rw [undo_concat hA]
  exact ⟨fun i => rfl, rfl, rfl⟩

lemma redo_step {r : EditorState} {A : List HistEntry} {lid : ℕ}
    {snap : Buffer} (hA : r.redoHistory = A ++ [⟨lid, snap⟩]) :
    (∀ i, (redo r).buffers i = if i = lid then snap else r.buffers i) ∧
      (redo r).redoHistory = A ∧
      (redo r).undoHistory =
        takeLast MAX_UNDO_HISTORY (r.undoHistory ++ [⟨lid, r.buffers lid⟩]) := by
  rw [redo_concat hA]
  exact ⟨fun i => rfl, rfl, rfl⟩

/-- Undoing a run of `n ≤ 10` destructive edits (from a state whose undo
stack respects the 10-entry bound) restores every buffer, truncates the
undo stack accordingly, and — as soon as there is at least one edit —
leaves exactly the post-edit snapshots on the redo stack. -/
lemma undoN_applyEdits :
    ∀ (edits : List (ℕ × (Buffer → Buffer))) (st : EditorState),
      edits.length ≤ MAX_UNDO_HISTORY →
      st.undoHistory.length ≤ MAX_UNDO_HISTORY →
      (∀ i, (undoN edits.length (applyEdits edits st)).buffers i =
        st.buffers i) ∧
      (undoN edits.length (applyEdits edits st)).undoHistory =
        takeLast (MAX_UNDO_HISTORY - edits.length) st.undoHistory ∧
      (edits = [] →
        (undoN edits.length (applyEdits edits st)).redoHistory =
          st.redoHistory) ∧
      (edits ≠ [] →
        (undoN edits.length (applyEdits edits st)).redoHistory =
          postEntries edits st) := by
  intro edits
  induction edits with
  | nil =>
      intro st _ h2
      refine ⟨fun i => rfl, ?_, fun _ => rfl, fun h => absurd rfl h⟩
      show st.undoHistory = takeLast (MAX_UNDO_HISTORY - 0) st.undoHistory
      rw [Nat.sub_zero, takeLast_of_length_le h2]
  | cons e rest ih =>
      intro st h1 h2
      have h1' : rest.length + 1 ≤ MAX_UNDO_HISTORY := by
        simpa using h1
      have hrest : rest.length ≤ MAX_UNDO_HISTORY := by omega
      have hst1len :
          (destructiveEdit e.1 e.2 st).undoHistory.length ≤
            MAX_UNDO_HISTORY := by
        rw [destructiveEdit_undoHistory]
        exact takeLast_length_le _ _
      obtain ⟨ihb, ihu, ihr0, ihr1⟩ :=
        ih (destructiveEdit e.1 e.2 st) hrest hst1len
      have hN : undoN (e :: rest).length (applyEdits (e :: rest) st) =
          undo (undoN rest.length
            (applyEdits rest (destructiveEdit e.1 e.2 st))) := by
        rw [applyEdits_cons, List.length_cons, undoN_succ]
      have hru :
          (undoN rest.length
              (applyEdits rest (destructiveEdit e.1 e.2 st))).undoHistory =
            takeLast (MAX_UNDO_HISTORY - (rest.length + 1)) st.undoHistory ++
              [⟨activeLayerId (setActiveLayer e.1 st),
                st.buffers (activeLayerId (setActiveLayer e.1 st))⟩] := by
        rw [ihu, destructiveEdit_undoHistory,
          takeLast_takeLast
            (by omega : MAX_UNDO_HISTORY - rest.length ≤ MAX_UNDO_HISTORY),
          takeLast_concat (by omega)]
        have harith : MAX_UNDO_HISTORY - rest.length - 1 =
            MAX_UNDO_HISTORY - (rest.length + 1) := by omega
        rw [harith]
      have hrredo :
          (undoN rest.length
              (applyEdits rest (destructiveEdit e.1 e.2 st))).redoHistory =
            postEntries rest (destructiveEdit e.1 e.2 st) := by
        rcases rest with _ | ⟨e2, rest2⟩
        · rw [ihr0 rfl]
          exact destructiveEdit_redoHistory e.1 e.2 st
        · exact ihr1 (List.cons_ne_nil e2 rest2)
      obtain ⟨hsb, hsu, hsr⟩ := undo_step hru
      refine ⟨?_, ?_, fun h => absurd h (List.cons_ne_nil e rest), fun _ => ?_⟩
      · intro i
        rw [hN, hsb i]
        by_cases hi : i = activeLayerId (setActiveLayer e.1 st)
        · rw [if_pos hi, hi]
        · rw [if_neg hi, ihb i, destructiveEdit_buffers, if_neg hi]
      · rw [hN, hsu, List.length_cons]
      · rw [hN, hsr, hrredo, ihb]
        have hlen :
            (postEntries rest (destructiveEdit e.1 e.2 st) ++
              [(⟨activeLayerId (setActiveLayer e.1 st),
                (destructiveEdit e.1 e.2 st).buffers
                  (activeLayerId (setActiveLayer e.1 st))⟩ : HistEntry)]).length ≤
              MAX_UNDO_HISTORY := by
          rw [List.length_append, postEntries_length]
          simp only [List.length_singleton]
          omega
        exact takeLast_of_length_le hlen

/-- Redoing `n` times from any state whose buffers agree with `st` and
whose redo stack holds exactly the post-edit snapshots of `edits` replays
the edits, buffer-wise. -/
lemma redoN_postEntries :
    ∀ (edits : List (ℕ × (Buffer → Buffer))) (st s : EditorState),
      (∀ i, s.buffers i = st.buffers i) →
      s.redoHistory = postEntries edits st →
      ∀ i, (redoN edits.length s).buffers i = (applyEdits edits st).buffers i := by
  intro edits
  induction edits with
  | nil =>
      intro st s hb _ i
      exact hb i
  | cons e rest ih =>
      intro st s hb hr i
      have hr' : s.redoHistory =
          postEntries rest (destructiveEdit e.1 e.2 st) ++
            [⟨activeLayerId (setActiveLayer e.1 st),
              (destructiveEdit e.1 e.2 st).buffers
                (activeLayerId (setActiveLayer e.1 st))⟩] := hr
      obtain ⟨rsb, rsr, _⟩ := redo_step hr'
      have hN : redoN (e :: rest).length s = redoN rest.length (redo s) := by
        rw [List.length_cons, redoN_succ]
      rw [hN]
      refine ih (destructiveEdit e.1 e.2 st) (redo s) ?_ rsr i
      intro j
      rw [rsb j]
      by_cases hj : j = activeLayerId (setActiveLayer e.1 st)
      · rw [if_pos hj, hj]
      · rw [if_neg hj, hb j, destructiveEdit_buffers, if_neg hj]

/-- Claim C2: for any sequence of `n ≤ 10` destructive edits (each pushing
one undo snapshot of the then-active layer's buffer before mutating it),
`undo()` applied `n` times restores every layer's buffer to its state
before the first edit, and `redo()` applied `n` times after that restores
every layer's buffer to its state after the last edit.  (The initial undo
stack respects the 10-entry bound, as every reachable state does.) -/
theorem undo_redo_inverse_law (st : EditorState)
    (edits : List (ℕ × (Buffer → Buffer)))
    (h1 : edits.length ≤ MAX_UNDO_HISTORY)
    (h2 : st.undoHistory.length ≤ MAX_UNDO_HISTORY) :
    (∀ i, (undoN edits.length (applyEdits edits st)).buffers i =
      st.buffers i) ∧
    (∀ i, (redoN edits.length
        (undoN edits.length (applyEdits edits st))).buffers i =
      (applyEdits edits st).buffers i) := by
  obtain ⟨hb, _, _, hr1⟩ := undoN_applyEdits edits st h1 h2
  refine ⟨hb, ?_⟩
  rcases edits with _ | ⟨e, rest⟩
  · intro i
    rfl
  · exact redoN_postEntries (e :: rest) st _ hb
      (hr1 (List.cons_ne_nil e rest))

/-- Witness for claim C2: one concrete edit (blanking layer 1) on the
sample state; the undo restores the all-255 buffer and the redo replays
the blanking. -/
theorem undo_redo_inverse_law_witness :
    (∀ i, (undoN 1 (applyEdits [(1, fun _ => fun _ => 0)] sampleState)).buffers
        i = sampleState.buffers i) ∧
    (∀ i, (redoN 1 (undoN 1
        (applyEdits [(1, fun _ => fun _ => 0)] sampleState))).buffers i =
      (applyEdits [(1, fun _ => fun _ => 0)] sampleState).buffers i) :=
  undo_redo_inverse_law sampleState [(1, fun _ => fun _ => 0)]
    (by decide) (by decide)

lemma undo_bounds {st : EditorState}
    (h1 : st.undoHistory.length ≤ MAX_UNDO_HISTORY)
    (h2 : st.redoHistory.length ≤ MAX_UNDO_HISTORY) :
    (undo st).undoHistory.length ≤ MAX_UNDO_HISTORY ∧
      (undo st).redoHistory.length ≤ MAX_UNDO_HISTORY := by
  unfold undo
  cases hg : st.undoHistory.getLast? with
  | none => exact ⟨h1, h2⟩
  | some E =>
      refine ⟨?_, takeLast_length_le _ _⟩
      show st.undoHistory.dropLast.length ≤ MAX_UNDO_HISTORY
      rw [List.length_dropLast]
      omega

lemma redo_bounds {st : EditorState}
    (h1 : st.undoHistory.length ≤ MAX_UNDO_HISTORY)
    (h2 : st.redoHistory.length ≤ MAX_UNDO_HISTORY) :
    (redo st).undoHistory.length ≤ MAX_UNDO_HISTORY ∧
      (redo st).redoHistory.length ≤ MAX_UNDO_HISTORY := by
  unfold redo
  cases hg : st.redoHistory.getLast? with
  | none => exact ⟨h1, h2⟩
  | some E =>
      refine ⟨takeLast_length_le _ _, ?_⟩
      show st.redoHistory.dropLast.length ≤ MAX_UNDO_HISTORY
      rw [List.length_dropLast]
      omega

lemma applyOp_bounds (o : EOp) {st : EditorState}
    (h1 : st.undoHistory.length ≤ MAX_UNDO_HISTORY)
    (h2 : st.redoHistory.length ≤ MAX_UNDO_HISTORY) :
    (applyOp o st).undoHistory.length ≤ MAX_UNDO_HISTORY ∧
      (applyOp o st).redoHistory.length ≤ MAX_UNDO_HISTORY := by
  cases o with
  | edit l f =>
      constructor
      · rw [show (applyOp (EOp.edit l f) st).undoHistory =
            (destructiveEdit l f st).undoHistory from rfl,
          destructiveEdit_undoHistory]
        exact takeLast_length_le _ _
      · rw [show (applyOp (EOp.edit l f) st).redoHistory =
            (destructiveEdit l f st).redoHistory from rfl,
          destructiveEdit_redoHistory]
        simp
  | undoOp => exact undo_bounds h1 h2
  | redoOp => exact redo_bounds h1 h2

/-- Claim C3: the undo and redo stacks each stay within 10 entries under
any sequence of destructive edits, undos and redos; and a push against a
full stack drops the oldest entry first — both for the push performed by
`saveUndoState` and for the redo-stack push performed by `undo`. -/
theorem bounded_history_fifo :
    (∀ (ops : List EOp) (st : EditorState),
        st.undoHistory.length ≤ MAX_UNDO_HISTORY →
        st.redoHistory.length ≤ MAX_UNDO_HISTORY →
        (applyOps ops st).undoHistory.length ≤ MAX_UNDO_HISTORY ∧
          (applyOps ops st).redoHistory.length ≤ MAX_UNDO_HISTORY) ∧
    (∀ st : EditorState,
        st.undoHistory.length = MAX_UNDO_HISTORY →
        (saveUndoState st).undoHistory =
          st.undoHistory.drop 1 ++
            [⟨activeLayerId st, st.buffers (activeLayerId st)⟩]) ∧
    (∀ (st : EditorState) (A : List HistEntry) (E : HistEntry),
        st.undoHistory = A ++ [E] →
        st.redoHistory.length = MAX_UNDO_HISTORY →
        (undo st).redoHistory =
          st.redoHistory.drop 1 ++ [⟨E.layerId, st.buffers E.layerId⟩]) := by
  refine ⟨?_, ?_, ?_⟩
  · intro ops
    induction ops with
    | nil => intro st h1 h2; exact ⟨h1, h2⟩
    | cons o rest ih =>
        intro st h1 h2
        obtain ⟨h1', h2'⟩ := applyOp_bounds o h1 h2
        exact ih (applyOp o st) h1' h2'
  · intro st h
    have hM : MAX_UNDO_HISTORY = 10 := rfl
    rw [show (saveUndoState st).undoHistory =
        takeLast MAX_UNDO_HISTORY
          (st.undoHistory ++
            [⟨activeLayerId st, st.buffers (activeLayerId st)⟩]) from rfl]
    rw [takeLast_concat (by omega)]
    unfold takeLast
    congr 2
    omega
  · intro st A E hA h
    have hM : MAX_UNDO_HISTORY = 10 := rfl
    obtain ⟨_, _, hsr⟩ := undo_step hA
    rw [hsr, takeLast_concat (by omega)]
    unfold takeLast
    congr 2
    omega

/-- Witness for claim C3: the empty operation list on the sample state; a
push against a ten-entry undo stack; and an undo against a ten-entry redo
stack. -/
theorem bounded_history_fifo_witness :
    ((applyOps [] sampleState).undoHistory.length ≤ MAX_UNDO_HISTORY ∧
      (applyOps [] sampleState).redoHistory.length ≤ MAX_UNDO_HISTORY) ∧
    ((saveUndoState fullUndoState).undoHistory =
      fullUndoState.undoHistory.drop 1 ++
        [⟨activeLayerId fullUndoState,
          fullUndoState.buffers (activeLayerId fullUndoState)⟩]) ∧
    ((undo fullRedoState).redoHistory =
      fullRedoState.redoHistory.drop 1 ++
        [⟨(⟨1, fun _ => 0⟩ : HistEntry).layerId,
          fullRedoState.buffers (⟨1, fun _ => 0⟩ : HistEntry).layerId⟩]) := by
  refine ⟨bounded_history_fifo.1 [] sampleState ?_ ?_,
    bounded_history_fifo.2.1 fullUndoState ?_,
    bounded_history_fifo.2.2 fullRedoState [] ⟨1, fun _ => 0⟩ rfl ?_⟩
  · decide
  · decide
  · decide
  · decide

lemma updateBuf_buffers (l : ℕ) (b : Buffer) (s : EditorState) (i : ℕ) :
    (updateBuf l b s).buffers i = if i = l then b else s.buffers i := rfl

lemma eraseBox_undoHistory (s : EditorState) :
    (eraseBox s).undoHistory = s.undoHistory := by
  unfold eraseBox
  split <;> rfl

lemma eraseBox_redoHistory (s : EditorState) :
    (eraseBox s).redoHistory = s.redoHistory := by
  unfold eraseBox
  split <;> rfl

lemma eraseBox_some {s : EditorState} {bs be : Point}
    (hbs : s.boxStart = some bs) (hbe : s.boxEnd = some be) :
    eraseBox s =
      updateBuf (activeLayerId s)
        (fun p =>
          if inFillRect (min bs.1 be.1) (min bs.2 be.2)
              |be.1 - bs.1| |be.2 - bs.2| p
          then 0 else s.buffers (activeLayerId s) p) s := by
  unfold eraseBox
  rw [hbs, hbe]

lemma brushPointerMove_undoHistory (q : Point) (s : EditorState) :
    (brushPointerMove q s).undoHistory = s.undoHistory := by
  unfold brushPointerMove
  split <;> rfl

lemma brushPointerMove_editSubTool (q : Point) (s : EditorState) :
    (brushPointerMove q s).editSubTool = s.editSubTool := by
  unfold brushPointerMove
  split <;> rfl

lemma brushMoves_preserve (moves : List Point) :
    ∀ s : EditorState,
      (moves.foldl (fun acc q => brushPointerMove q acc) s).undoHistory =
        s.undoHistory ∧
      (moves.foldl (fun acc q => brushPointerMove q acc) s).editSubTool =
        s.editSubTool := by
  induction moves with
  | nil => intro s; exact ⟨rfl, rfl⟩
  | cons q rest ih =>
      intro s
      obtain ⟨h1, h2⟩ := ih (brushPointerMove q s)
      rw [List.foldl_cons]
      exact ⟨h1.trans (brushPointerMove_undoHistory q s),
        h2.trans (brushPointerMove_editSubTool q s)⟩

/-- Claim C5: each of the three destructive edits — starting a brush
stroke, committing a box erase at pointer-up, and erasing the selected
lines — leaves the redo stack empty, because the undo push it performs
clears the redo stack. -/
theorem destructive_edit_clears_redo :
    (∀ (p : Point) (st : EditorState),
        (brushPointerDown p st).redoHistory = []) ∧
    (∀ st : EditorState,
        st.editSubTool = SubTool.box →
        st.boxStart.isSome = true → st.boxEnd.isSome = true →
        (pointerUp st).redoHistory = []) ∧
    (∀ st : EditorState, st.selectedLines ≠ ∅ →
        (eraseSelectedLines st).redoHistory = []) := by
  refine ⟨fun p st => rfl, ?_, ?_⟩
  · intro st htool hbs hbe
    unfold pointerUp
    rw [if_pos ⟨htool, hbs, hbe⟩]
    show (eraseBox (saveUndoState st)).redoHistory = _
    rw [eraseBox_redoHistory]
    rfl
  · intro st hne
    unfold eraseSelectedLines
    rw [if_neg hne]
    rfl

/-- Witness for claim C5: the three destructive edits on concrete ready
states (brush-down on the sample state, pointer-up on the pending
degenerate box, erase-selected on the one-segment selection). -/
theorem destructive_edit_clears_redo_witness :
    ((brushPointerDown ((0 : ℚ), (0 : ℚ)) sampleState).redoHistory = []) ∧
    ((pointerUp degenerateBoxState).redoHistory = []) ∧
    ((eraseSelectedLines lineSelState).redoHistory = []) :=
  ⟨destructive_edit_clears_redo.1 (0, 0) sampleState,
    destructive_edit_clears_redo.2.1 degenerateBoxState rfl rfl rfl,
    destructive_edit_clears_redo.2.2 lineSelState (by decide)⟩

/-- Claim C6: a brush stroke — pointer-down, then any number of move
events, ended by pointer-up — pushes exactly one undo snapshot, taken at
pointer-down; the per-move circular erase pushes none. -/
theorem brush_stroke_single_undo (st : EditorState) (p : Point)
    (moves : List Point) (htool : st.editSubTool = SubTool.brush) :
    (pointerUp (moves.foldl (fun acc q => brushPointerMove q acc)
        (brushPointerDown p st))).undoHistory =
      takeLast MAX_UNDO_HISTORY
        (st.undoHistory ++
          [⟨activeLayerId st, st.buffers (activeLayerId st)⟩]) ∧
    (∀ (q : Point) (s : EditorState),
        (eraseAtPoint q s).undoHistory = s.undoHistory) := by
  refine ⟨?_, fun q s => rfl⟩
  obtain ⟨hfu, hft⟩ := brushMoves_preserve moves (brushPointerDown p st)
  have htF : (moves.foldl (fun acc q => brushPointerMove q acc)
      (brushPointerDown p st)).editSubTool = SubTool.brush := hft.trans htool
  have hcond : ¬((moves.foldl (fun acc q => brushPointerMove q acc)
        (brushPointerDown p st)).editSubTool = SubTool.box ∧
      (moves.foldl (fun acc q => brushPointerMove q acc)
        (brushPointerDown p st)).boxStart.isSome = true ∧
      (moves.foldl (fun acc q => brushPointerMove q acc)
        (brushPointerDown p st)).boxEnd.isSome = true) := by
    intro hc
    rw [htF] at hc
    exact absurd hc.1 (by decide)
  unfold pointerUp
  rw [if_neg hcond]
  show (moves.foldl (fun acc q => brushPointerMove q acc)
      (brushPointerDown p st)).undoHistory = _
  rw [hfu]
  rfl

/-- Witness for claim C6: a one-move stroke on the sample state. -/
theorem brush_stroke_single_undo_witness :
    (pointerUp ([((2 : ℚ), (2 : ℚ))].foldl
        (fun acc q => brushPointerMove q acc)
        (brushPointerDown ((0 : ℚ), (0 : ℚ)) sampleState))).undoHistory =
      takeLast MAX_UNDO_HISTORY
        (sampleState.undoHistory ++
          [⟨activeLayerId sampleState,
            sampleState.buffers (activeLayerId sampleState)⟩]) ∧
    (∀ (q : Point) (s : EditorState),
        (eraseAtPoint q s).undoHistory = s.undoHistory) :=
  brush_stroke_single_undo sampleState (0, 0) [(2, 2)] rfl

/-- Claim C7: releasing a box drag whose image-space corners share an x
coordinate or share a y coordinate erases nothing — no pixel of any buffer
changes — yet still pushes exactly one undo entry for the active layer. -/
theorem degenerate_box_consumes_undo (st : EditorState) (bs be : Point)
    (htool : st.editSubTool = SubTool.box)
    (hbs : st.boxStart = some bs) (hbe : st.boxEnd = some be)
    (hdeg : bs.1 = be.1 ∨ bs.2 = be.2) :
    (∀ (i : ℕ) (p : Point), (pointerUp st).buffers i p = st.buffers i p) ∧
    (pointerUp st).undoHistory =
      takeLast MAX_UNDO_HISTORY
        (st.undoHistory ++
          [⟨activeLayerId st, st.buffers (activeLayerId st)⟩]) := by
  have hbs' : (saveUndoState st).boxStart = some bs := hbs
  have hbe' : (saveUndoState st).boxEnd = some be := hbe
  have hcond : st.editSubTool = SubTool.box ∧
      st.boxStart.isSome = true ∧ st.boxEnd.isSome = true :=
    ⟨htool, by rw [hbs]; rfl, by rw [hbe]; rfl⟩
  have hrect : ∀ p : Point,
      ¬inFillRect (min bs.1 be.1) (min bs.2 be.2)
        |be.1 - bs.1| |be.2 - bs.2| p := by
    intro p hin
    unfold inFillRect at hin
    obtain ⟨hA, hB, hC, hD⟩ := hin
    rcases hdeg with h | h
    · rw [h] at hA hB
      rw [sub_self, abs_zero, add_zero] at hB
      exact absurd hB (not_lt.mpr hA)
    · rw [h] at hC hD
      rw [sub_self, abs_zero, add_zero] at hD
      exact absurd hD (not_lt.mpr hC)
  constructor
  · intro i p
    unfold pointerUp
    rw [if_pos hcond]
    show (eraseBox (saveUndoState st)).buffers i p = _
    rw [eraseBox_some hbs' hbe', updateBuf_buffers]
    by_cases hi : i = activeLayerId (saveUndoState st)
    · rw [if_pos hi]
      show (if inFillRect (min bs.1 be.1) (min bs.2 be.2)
          |be.1 - bs.1| |be.2 - bs.2| p
        then 0
        else (saveUndoState st).buffers
          (activeLayerId (saveUndoState st)) p) = _
      rw [if_neg (hrect p), hi]
      rfl
    · rw [if_neg hi]
      rfl
  · unfold pointerUp
    rw [if_pos hcond]
    show (eraseBox (saveUndoState st)).undoHistory = _
    rw [eraseBox_undoHistory]
    rfl

/-- Witness for claim C7: a pending zero-width box on the sample state. -/
theorem degenerate_box_consumes_undo_witness :
    (∀ (i : ℕ) (p : Point),
        (pointerUp degenerateBoxState).buffers i p =
          degenerateBoxState.buffers i p) ∧
    (pointerUp degenerateBoxState).undoHistory =
      takeLast MAX_UNDO_HISTORY
        (degenerateBoxState.undoHistory ++
          [⟨activeLayerId degenerateBoxState,
            degenerateBoxState.buffers (activeLayerId degenerateBoxState)⟩]) :=
  degenerate_box_consumes_undo degenerateBoxState (3, 4) (3, 9)
    rfl rfl rfl (Or.inl rfl)

/-- Claim C10: invoking erase-selected-lines with an empty selection set is
an atomic no-op on the editing state — it returns before pushing any undo
entry, leaving histories, buffers and selection untouched. -/
theorem empty_selection_noop (st : EditorState)
    (h : st.selectedLines = ∅) : eraseSelectedLines st = st := by
  unfold eraseSelectedLines
  rw [if_pos h]

/-- Witness for claim C10: the sample state's selection is empty. -/
theorem empty_selection_noop_witness :
    eraseSelectedLines sampleState = sampleState :=
  empty_selection_noop sampleState rfl

lemma linePointerDown_selectedLines (canvasP : Point) (s : EditorState) :
    (linePointerDown canvasP s).selectedLines =
      (findLineNearPoint s.detectedLines (toolImagePoint s canvasP).1
          (toolImagePoint s canvasP).2).elim s.selectedLines
        (fun idx =>
          if idx ∈ s.selectedLines then s.selectedLines.erase idx
          else insert idx s.selectedLines) := by
  unfold linePointerDown
  cases findLineNearPoint s.detectedLines (toolImagePoint s canvasP).1
      (toolImagePoint s canvasP).2 with
  | none => rfl
  | some idx => rfl

lemma linePointerDown_detectedLines (canvasP : Point) (s : EditorState) :
    (linePointerDown canvasP s).detectedLines = s.detectedLines := by
  unfold linePointerDown
  cases findLineNearPoint s.detectedLines (toolImagePoint s canvasP).1
      (toolImagePoint s canvasP).2 with
  | none => rfl
  | some idx => rfl

lemma linePointerDown_layers (canvasP : Point) (s : EditorState) :
    (linePointerDown canvasP s).layers = s.layers := by
  unfold linePointerDown
  cases findLineNearPoint s.detectedLines (toolImagePoint s canvasP).1
      (toolImagePoint s canvasP).2 with
  | none => rfl
  | some idx => rfl

lemma toolImagePoint_congr {s s' : EditorState} (h : s.layers = s'.layers) :
    toolImagePoint s = toolImagePoint s' := by
  unfold toolImagePoint activeLayerId
  rw [h]

/-- Claim C8: performing the line-toggle click at the same image point
twice in succession returns the selection set to its original state — the
click is a no-op when no detected segment is within threshold, and both
clicks otherwise toggle the same deterministically-nearest segment. -/
theorem line_toggle_symmetry (st : EditorState) (canvasP : Point) :
    (linePointerDown canvasP (linePointerDown canvasP st)).selectedLines =
      st.selectedLines := by
  have hdet := linePointerDown_detectedLines canvasP st
  have ht : toolImagePoint (linePointerDown canvasP st) = toolImagePoint st :=
    toolImagePoint_congr (linePointerDown_layers canvasP st)
  rw [linePointerDown_selectedLines canvasP (linePointerDown canvasP st),
    hdet, ht, linePointerDown_selectedLines canvasP st]
  cases hf : findLineNearPoint st.detectedLines (toolImagePoint st canvasP).1
      (toolImagePoint st canvasP).2 with
  | none => rfl
  | some idx =>
      simp only [Option.elim]
      by_cases hmem : idx ∈ st.selectedLines
      · rw [if_pos hmem, if_neg (Finset.not_mem_erase idx st.selectedLines),
          Finset.insert_erase hmem]
      · rw [if_neg hmem, if_pos (Finset.mem_insert_self idx st.selectedLines),
          Finset.erase_insert hmem]

/-- Claim C4, as stated, is false: the sub-tool buttons call the raw state
setter, so switching away from the line sub-tool does not reset a
non-empty selection (here the selection `{0}` survives the switch to the
brush sub-tool). -/
theorem subtool_switch_no_reset_cex :
    ¬((setEditSubToolOp SubTool.brush pendingToolState).selectedLines = ∅) := by
  decide

/-- Claim C4 as amended: switching the edit sub-tool changes only the
sub-tool field — the pending box drag anchors, the line selection set, the
pixel buffers and both history stacks all survive the transition (and no
pixel data is mutated); in-progress state is cleared only by pointer-up or
by the explicit clear/erase actions. -/
theorem subtool_switch_preserves_state (t : SubTool) (st : EditorState) :
    (setEditSubToolOp t st).editSubTool = t ∧
    (setEditSubToolOp t st).boxStart = st.boxStart ∧
    (setEditSubToolOp t st).boxEnd = st.boxEnd ∧
    (setEditSubToolOp t st).selectedLines = st.selectedLines ∧
    (setEditSubToolOp t st).buffers = st.buffers ∧
    (setEditSubToolOp t st).undoHistory = st.undoHistory ∧
    (setEditSubToolOp t st).redoHistory = st.redoHistory :=
  ⟨rfl, rfl, rfl, rfl, rfl, rfl, rfl⟩

/-- Claim C1 fails on the code: with zero offsets, zero rotation (cosine 1,
sine 0), scale 2 and a 1600 x 1200 image (so `scaleToFit = 1`), the
compositor places image point (0, 0) at display point (-800, -600), but
the tools' inverse — which ignores rotation, `scaleToFit` and the
centering offset — maps that display point back to (-400, -300). -/
theorem transform_roundtrip_fails :
    toolInverse ⟨0, 0, 0, 1, 2⟩
        (renderForward ⟨0, 0, 0, 1, 2⟩ 1 0 (scaleToFit 1600 1200) 1600 1200
          (0, 0)) ≠ ((0 : ℚ), (0 : ℚ)) := by
  simp only [toolInverse, renderForward, scaleToFit]
  norm_num

lemma strokeHit_none {lines : List Seg} {idx : ℕ} {p : Point}
    (h : lines.get? idx = none) : ¬strokeHit lines idx p := by
  unfold strokeHit
  rw [h]
  exact fun hh => hh

lemma strokeHit_some {lines : List Seg} {idx : ℕ} {line : Seg} {p : Point}
    (h : lines.get? idx = some line) :
    strokeHit lines idx p ↔ inStroke line 5 p := by
  unfold strokeHit
  rw [h]

lemma strokeStep_none {lines : List Seg} {j : ℕ} (B : Buffer)
    (h : lines.get? j = none) : strokeStep lines B j = B := by
  unfold strokeStep
  rw [h]
  rfl

lemma strokeStep_some {lines : List Seg} {j : ℕ} {line : Seg} (B : Buffer)
    (h : lines.get? j = some line) :
    strokeStep lines B j =
      fun q => if inStroke line 5 q then 0 else B q := by
  unfold strokeStep
  rw [h]
  rfl

/-- The pointwise effect of stroking every segment indexed by `L`: a pixel
is cleared exactly when some index of `L` hits it; every other pixel keeps
its value. -/
lemma strokeFold_apply (lines : List Seg) :
    ∀ (L : List ℕ) (B : Buffer) (p : Point),
      (L.foldl (strokeStep lines) B) p =
        if ∃ idx ∈ L, strokeHit lines idx p then 0 else B p := by
  intro L
  induction L with
  | nil =>
      intro B p
      rw [List.foldl_nil, if_neg]
      rintro ⟨i, hi, _⟩
      exact (List.not_mem_nil i) hi
  | cons j L' ih =>
      intro B p
      rw [List.foldl_cons, ih]
      by_cases hex : ∃ idx ∈ L', strokeHit lines idx p
      · rw [if_pos hex]
        obtain ⟨i, hi, hQ⟩ := hex
        rw [if_pos (show ∃ idx ∈ j :: L', strokeHit lines idx p from
          ⟨i, List.mem_cons_of_mem j hi, hQ⟩)]
      · rw [if_neg hex]
        cases hj : lines.get? j with
        | none =>
            rw [strokeStep_none B hj,
              if_neg (show ¬∃ idx ∈ j :: L', strokeHit lines idx p from by
                rintro ⟨i, hi, hQ⟩
                rcases List.mem_cons.mp hi with rfl | hi'
                · exact strokeHit_none hj hQ
                · exact hex ⟨i, hi', hQ⟩)]
        | some line =>
            rw [strokeStep_some B hj]
            show (if inStroke line 5 p then 0 else B p) = _
            by_cases hs : inStroke line 5 p
            · rw [if_pos hs,
                if_pos (show ∃ idx ∈ j :: L', strokeHit lines idx p from
                  ⟨j, List.mem_cons_self j L', (strokeHit_some hj).mpr hs⟩)]
            · rw [if_neg hs,
                if_neg (show ¬∃ idx ∈ j :: L', strokeHit lines idx p from by
                  rintro ⟨i, hi, hQ⟩
                  rcases List.mem_cons.mp hi with rfl | hi'
                  · exact hs ((strokeHit_some hj).mp hQ)
                  · exact hex ⟨i, hi', hQ⟩)]

lemma withSelected_buffers (s : EditorState) (v : Finset ℕ) :
    ({ s with selectedLines := v } : EditorState).buffers = s.buffers := rfl

lemma eraseSelectedLines_of_ne {st : EditorState}
    (hne : st.selectedLines ≠ ∅) :
    eraseSelectedLines st =
      { updateBuf (activeLayerId st)
          ((st.selectedLines.sort (· ≤ ·)).foldl
            (strokeStep st.detectedLines) (st.buffers (activeLayerId st)))
          (saveUndoState st) with
        selectedLines := ∅ } := by
  unfold eraseSelectedLines
  rw [if_neg hne]

/-- Claim C9: with a non-empty selection, erase-selected-lines performs one
undo-tracked operation — it pushes exactly one undo snapshot of the active
layer and clears the redo stack — sets to alpha 0 exactly the active-layer
pixels within the width-5 stroke of some selected detected segment, leaves
every other pixel of every layer unchanged, and empties the selection. -/
theorem erase_selected_lines_spec (st : EditorState)
    (hne : st.selectedLines ≠ ∅) :
    (∀ p : Point,
        (∃ idx ∈ st.selectedLines, strokeHit st.detectedLines idx p) →
        (eraseSelectedLines st).buffers (activeLayerId st) p = 0) ∧
    (∀ p : Point,
        ¬(∃ idx ∈ st.selectedLines, strokeHit st.detectedLines idx p) →
        (eraseSelectedLines st).buffers (activeLayerId st) p =
          st.buffers (activeLayerId st) p) ∧
    (∀ i : ℕ, i ≠ activeLayerId st → ∀ p : Point,
        (eraseSelectedLines st).buffers i p = st.buffers i p) ∧
    (eraseSelectedLines st).selectedLines = ∅ ∧
    (eraseSelectedLines st).undoHistory =
      takeLast MAX_UNDO_HISTORY
        (st.undoHistory ++
          [⟨activeLayerId st, st.buffers (activeLayerId st)⟩]) ∧
    (eraseSelectedLines st).redoHistory = [] := by
  have hbuf : ∀ p : Point,
      (eraseSelectedLines st).buffers (activeLayerId st) p =
        if ∃ idx ∈ st.selectedLines, strokeHit st.detectedLines idx p
        then 0 else st.buffers (activeLayerId st) p := by
    intro p
    rw [eraseSelectedLines_of_ne hne, withSelected_buffers,
      updateBuf_buffers, if_pos rfl, strokeFold_apply]
    simp only [Finset.mem_sort]
  refine ⟨?_, ?_, ?_, ?_, ?_, ?_⟩
  · intro p hc
    rw [hbuf p, if_pos hc]
  · intro p hc
    rw [hbuf p, if_neg hc]
  · intro i hi p
    rw [eraseSelectedLines_of_ne hne, withSelected_buffers,
      updateBuf_buffers, if_neg hi]
    rfl
  · rw [eraseSelectedLines_of_ne hne]
  · rw [eraseSelectedLines_of_ne hne]
    rfl
  · rw [eraseSelectedLines_of_ne hne]
    rfl

/-- Witness for claim C9: one detected horizontal segment, selected, on
the sample state. -/
theorem erase_selected_lines_spec_witness :
    (∀ p : Point,
        (∃ idx ∈ lineSelState.selectedLines,
          strokeHit lineSelState.detectedLines idx p) →
        (eraseSelectedLines lineSelState).buffers
          (activeLayerId lineSelState) p = 0) ∧
    (∀ p : Point,
        ¬(∃ idx ∈ lineSelState.selectedLines,
          strokeHit lineSelState.detectedLines idx p) →
        (eraseSelectedLines lineSelState).buffers
            (activeLayerId lineSelState) p =
          lineSelState.buffers (activeLayerId lineSelState) p) ∧
    (∀ i : ℕ, i ≠ activeLayerId lineSelState → ∀ p : Point,
        (eraseSelectedLines lineSelState).buffers i p =
          lineSelState.buffers i p) ∧
    (eraseSelectedLines lineSelState).selectedLines = ∅ ∧
    (eraseSelectedLines lineSelState).undoHistory =
      takeLast MAX_UNDO_HISTORY
        (lineSelState.undoHistory ++
          [⟨activeLayerId lineSelState,
            lineSelState.buffers (activeLayerId lineSelState)⟩]) ∧
    (eraseSelectedLines lineSelState).redoHistory = [] :=
  erase_selected_lines_spec lineSelState (by decide)

end ArchiDiff
